import Mathlib

/-!
Verification of the libchip8 CHIP-8 emulator core.

Shallow embedding of the Rust sources (cpu.rs, display.rs, emulator.rs,
mem.rs, input.rs) of the libchip8 crate, together with proofs that settle
the specification claims about the opcode codec, the CPU primitives, the
XOR display, and the fetch/decode/execute loop.

Modelling conventions:
* Machine integers (u8, u16) are natural numbers; where Rust arithmetic
  wraps (the release two-complement wrapping of plain additions and
  subtractions, and the defined semantics of wrapping_add, overflowing_add,
  overflowing_sub, overflowing_shl, overflowing_shr, rotate_left and
  checked_sub) the wrap is an explicit mod 2^8 or mod 2^16.
* Array indexing that can go out of bounds in Rust (memory cells) is
  modelled with Option: none is an aborted (panicking) computation.  The
  always-active assert_eq in CPU.ret is likewise modelled by returning
  none when the asserted equality fails.
* Register files, key state and pixels are total maps from indices; the
  4-bit instruction fields keep all indices used by execution in range
  (spec section 7), so out-of-range register indexing never arises from
  decoded programs.
* The Rust Vec call stack (push/pop at the back) is modelled as a Lean
  list with cons/head at the front.
* The source of randomness used by the RND opcode (rand::random) is an
  external input: execution takes the random byte as an extra argument.
-/

set_option maxHeartbeats 1000000
set_option maxRecDepth 10000

namespace Chip8

/-- u8 rotate_left: the Rust semantics rotates by the shift amount mod 8. -/
def rotateLeft8 (b k : Nat) : Nat :=
  ((b <<< (k % 8)) ||| (b >>> (8 - k % 8))) % 256

/-- u8 overflowing_add: wrapped sum and a carry flag (for byte inputs,
the flag says the mathematical sum exceeds 255). -/
def overflowing_add8 (a b : Nat) : Nat × Bool :=
  ((a + b) % 256, decide (256 ≤ a + b))

/-- u8 overflowing_sub: wrapped difference and a borrow flag (for byte
inputs the wrapped difference is (a - b) mod 256 and the flag says a < b). -/
def overflowing_sub8 (a b : Nat) : Nat × Bool :=
  ((a + 256 - b % 256) % 256, decide (a < b))

/-- u8 overflowing_shr: Rust shifts by the amount mod 8 and reports
overflow exactly when the shift amount is at least the bit width 8 —
it does NOT report the shifted-out bit. -/
def overflowing_shr8 (a rhs : Nat) : Nat × Bool :=
  (a >>> (rhs % 8), decide (8 ≤ rhs))

/-- u8 overflowing_shl: Rust shifts by the amount mod 8 (wrapping the
value to a byte) and reports overflow exactly when the shift amount is at
least the bit width 8. -/
def overflowing_shl8 (a rhs : Nat) : Nat × Bool :=
  ((a <<< (rhs % 8)) % 256, decide (8 ≤ rhs))

/-- u8 checked_sub. -/
def checked_sub (a b : Nat) : Option Nat :=
  if b ≤ a then some (a - b) else none

/-- The register file [u8; 16] as a total map from index to value
(cpu.rs: type Regs). -/
def Regs := Nat → Nat

/-- Array store regs[j] = v. -/
def Regs.set (r : Regs) (j v : Nat) : Regs :=
  fun k => if k = j then v else r k

/-- cpu.rs: enum Opcode, one variant per CHIP-8 operation.  Nibble,
byte and address operands are all naturals. -/
inductive Opcode where
  | CLS
  | RET
  | JP (a : Nat)
  | CALL (a : Nat)
  | SE (vx byte : Nat)
  | SNE (vx byte : Nat)
  | SER (vx vy : Nat)
  | LD (vx byte : Nat)
  | ADD (vx byte : Nat)
  | LDR (vx vy : Nat)
  | OR (vx vy : Nat)
  | AND (vx vy : Nat)
  | XOR (vx vy : Nat)
  | ADDR (vx vy : Nat)
  | SUBR (vx vy : Nat)
  | SHR (vx : Nat)
  | SUBRN (vx vy : Nat)
  | SHL (vx : Nat)
  | SNER (vx vy : Nat)
  | LDI (a : Nat)
  | JPOFF (a : Nat)
  | RND (vx byte : Nat)
  | DRW (vx vy n : Nat)
  | SKP (vx : Nat)
  | SKNP (vx : Nat)
  | KEYSET (vx : Nat)
  | DTSET (vx : Nat)
  | DTGET (vx : Nat)
  | STSET (vx : Nat)
  | IINC (vx : Nat)
  | IDIG (vx : Nat)
  | BCD (vx : Nat)
  | REGSSTORE (vx : Nat)
  | REGLOAD (vx : Nat)
  deriving DecidableEq

/-- cpu.rs: Opcode::from — decode a 16-bit word to an operation, none on
an unrecognized pattern.  The branch order and the field extraction
expressions mirror the source line by line. -/
def Opcode.fromInstr (op : Nat) : Option Opcode :=
  if op &&& 0xF000 == 0x1000 then some (Opcode.JP (op &&& 0x0FFF))
  else if op &&& 0xF000 == 0x2000 then some (Opcode.CALL (op &&& 0x0FFF))
  else if op == 0x00E0 then some Opcode.CLS
  else if op == 0x00EE then some Opcode.RET
  else if op &&& 0xF000 == 0x3000 then
    some (Opcode.SE ((op &&& 0x0F00) >>> 8) (op &&& 0x00FF))
  else if op &&& 0xF000 == 0x4000 then
    some (Opcode.SNE ((op &&& 0x0F00) >>> 8) (op &&& 0x00FF))
  else if op &&& 0xF00F == 0x5000 then
    some (Opcode.SER ((op &&& 0x0F00) >>> 8) ((op &&& 0x00F0) >>> 4))
  else if op &&& 0xF000 == 0x6000 then
    some (Opcode.LD ((op >>> 8) &&& 0xF) (op &&& 0xFF))
  else if op &&& 0xF000 == 0x7000 then
    some (Opcode.ADD ((op >>> 8) &&& 0xF) (op &&& 0xFF))
  else if op &&& 0xF00F == 0x8000 then
    some (Opcode.LDR ((op >>> 8) &&& 0xF) ((op >>> 4) &&& 0xF))
  else if op &&& 0xF00F == 0x8001 then
    some (Opcode.OR ((op >>> 8) &&& 0xF) ((op >>> 4) &&& 0xF))
  else if op &&& 0xF00F == 0x8002 then
    some (Opcode.AND ((op >>> 8) &&& 0xF) ((op >>> 4) &&& 0xF))
  else if op &&& 0xF00F == 0x8003 then
    some (Opcode.XOR ((op >>> 8) &&& 0xF) ((op >>> 4) &&& 0xF))
  else if op &&& 0xF00F == 0x8004 then
    some (Opcode.ADDR ((op >>> 8) &&& 0xF) ((op >>> 4) &&& 0xF))
  else if op &&& 0xF00F == 0x8005 then
    some (Opcode.SUBR ((op >>> 8) &&& 0xF) ((op >>> 4) &&& 0xF))
  else if op &&& 0xF00F == 0x8006 then
    some (Opcode.SHR ((op >>> 8) &&& 0xF))
  else if op &&& 0xF00F == 0x8007 then
    some (Opcode.SUBRN ((op >>> 8) &&& 0xF) ((op >>> 4) &&& 0xF))
  else if op &&& 0xF00F == 0x800E then
    some (Opcode.SHL ((op >>> 8) &&& 0xF))
  else if op &&& 0xF00F == 0x9000 then
    some (Opcode.SNER ((op >>> 8) &&& 0xF) ((op >>> 4) &&& 0xF))
  else if op &&& 0xF000 == 0xA000 then some (Opcode.LDI (op &&& 0x0FFF))
  else if op &&& 0xF000 == 0xB000 then some (Opcode.JPOFF (op &&& 0x0FFF))
  else if op &&& 0xF000 == 0xC000 then
    some (Opcode.RND ((op >>> 8) &&& 0xF) ((op >>> 4) &&& 0xF))
  else if op &&& 0xF000 == 0xD000 then
    some (Opcode.DRW ((op >>> 8) &&& 0xF) ((op >>> 4) &&& 0xF) (op &&& 0xF))
  else if op &&& 0xF0FF == 0xE09E then some (Opcode.SKP ((op >>> 8) &&& 0x0F))
  else if op &&& 0xF0FF == 0xE0A1 then some (Opcode.SKNP ((op >>> 8) &&& 0x0F))
  else if op &&& 0xF0FF == 0xF00A then some (Opcode.KEYSET ((op >>> 8) &&& 0x0F))
  else if op &&& 0xF0FF == 0xF015 then some (Opcode.DTSET ((op >>> 8) &&& 0x0F))
  else if op &&& 0xF0FF == 0xF007 then some (Opcode.DTGET ((op >>> 8) &&& 0x0F))
  else if op &&& 0xF0FF == 0xF018 then some (Opcode.STSET ((op >>> 8) &&& 0x0F))
  else if op &&& 0xF0FF == 0xF01E then some (Opcode.IINC ((op >>> 8) &&& 0x0F))
  else if op &&& 0xF0FF == 0xF029 then some (Opcode.IDIG ((op >>> 8) &&& 0x0F))
  else if op &&& 0xF0FF == 0xF033 then some (Opcode.BCD ((op >>> 8) &&& 0x0F))
  else if op &&& 0xF0FF == 0xF055 then some (Opcode.REGSSTORE ((op >>> 8) &&& 0x0F))
  else if op &&& 0xF0FF == 0xF065 then some (Opcode.REGLOAD ((op >>> 8) &&& 0x0F))
  else none

/-- cpu.rs: Opcode::to_instr — encode an operation as a 16-bit word. -/
def Opcode.to_instr : Opcode → Nat
  | Opcode.CLS => 0x00E0
  | Opcode.RET => 0x00EE
  | Opcode.JP a => 0x1000 ||| a
  | Opcode.CALL a => 0x2000 ||| a
  | Opcode.SE vx byte => 0x3000 ||| (vx <<< 8) ||| byte
  | Opcode.SNE vx byte => 0x4000 ||| (vx <<< 8) ||| byte
  | Opcode.SER vx vy => 0x5000 ||| (vx <<< 8) ||| (vy <<< 4)
  | Opcode.LD vx byte => 0x6000 ||| (vx <<< 8) ||| byte
  | Opcode.ADD vx byte => 0x7000 ||| (vx <<< 8) ||| byte
  | Opcode.LDR vx vy => 0x8000 ||| (vx <<< 8) ||| (vy <<< 4)
  | Opcode.OR vx vy => 0x8001 ||| (vx <<< 8) ||| (vy <<< 4)
  | Opcode.AND vx vy => 0x8002 ||| (vx <<< 8) ||| (vy <<< 4)
  | Opcode.XOR vx vy => 0x8003 ||| (vx <<< 8) ||| (vy <<< 4)
  | Opcode.ADDR vx vy => 0x8004 ||| (vx <<< 8) ||| (vy <<< 4)
  | Opcode.SUBR vx vy => 0x8005 ||| (vx <<< 8) ||| (vy <<< 4)
  | Opcode.SHR vx => 0x8006 ||| (vx <<< 8)
  | Opcode.SUBRN vx vy => 0x8007 ||| (vx <<< 8) ||| (vy <<< 4)
  | Opcode.SHL vx => 0x800E ||| (vx <<< 8)
  | Opcode.SNER vx vy => 0x9000 ||| (vx <<< 8) ||| (vy <<< 4)
  | Opcode.LDI a => 0xA000 ||| a
  | Opcode.JPOFF a => 0xB000 ||| a
  | Opcode.RND vx vy => 0xC000 ||| (vx <<< 8) ||| (vy <<< 4)
  | Opcode.DRW vx vy n => 0xD000 ||| (vx <<< 8) ||| (vy <<< 4) ||| n
  | Opcode.SKP a => 0xE09E ||| (a <<< 8)
  | Opcode.SKNP a => 0xE0A1 ||| (a <<< 8)
  | Opcode.KEYSET a => 0xF00A ||| (a <<< 8)
  | Opcode.DTSET a => 0xF015 ||| (a <<< 8)
  | Opcode.DTGET a => 0xF007 ||| (a <<< 8)
  | Opcode.STSET a => 0xF018 ||| (a <<< 8)
  | Opcode.IINC a => 0xF01E ||| (a <<< 8)
  | Opcode.IDIG a => 0xF029 ||| (a <<< 8)
  | Opcode.BCD a => 0xF033 ||| (a <<< 8)
  | Opcode.REGSSTORE a => 0xF055 ||| (a <<< 8)
  | Opcode.REGLOAD a => 0xF065 ||| (a <<< 8)

/-- cpu.rs: struct CPU.  pc, i and sp are u16, dt and st are u8, the
stack is the Vec of return addresses (front of the list = top). -/
structure CPU where
  pc : Nat
  i : Nat
  regs : Regs
  sp : Nat
  stack : List Nat
  instr : Option Opcode
  dt : Nat
  st : Nat

/-- cpu.rs: CPU::new — everything zeroed, empty stack, no instruction. -/
def CPU.new : CPU :=
  { pc := 0, i := 0, regs := fun _ => 0, sp := 0, stack := [],
    instr := none, dt := 0, st := 0 }

/-- cpu.rs: CPU::inc_pc — pc += 2 (u16). -/
def CPU.inc_pc (c : CPU) : CPU :=
  { c with pc := (c.pc + 2) % 65536 }

/-- cpu.rs: CPU::ret — if the stack is nonempty, pop into pc and
decrement sp (u16, wrapping), then assert_eq!(sp, stack.len()); the
failed assertion aborts (none).  An empty stack is a no-op. -/
def CPU.ret (c : CPU) : Option CPU :=
  match c.stack with
  | [] => some c
  | a :: rest =>
      if (c.sp + 65535) % 65536 = rest.length then
        some { c with sp := (c.sp + 65535) % 65536, pc := a, stack := rest }
      else none

/-- cpu.rs: CPU::call — push the current pc, sp += 1 (u16), pc = a. -/
def CPU.call (c : CPU) (a : Nat) : CPU :=
  { c with stack := c.pc :: c.stack, sp := (c.sp + 1) % 65536, pc := a }

/-- cpu.rs: CPU::skip_if — pc += 4 if the predicate holds else 2. -/
def CPU.skip_if (c : CPU) (pred : Bool) : CPU :=
  { c with pc := (c.pc + if pred then 4 else 2) % 65536 }

/-- cpu.rs: CPU::skip_eq. -/
def CPU.skip_eq (c : CPU) (vx byte : Nat) : CPU :=
  c.skip_if (c.regs vx == byte)

/-- cpu.rs: CPU::skip_neq. -/
def CPU.skip_neq (c : CPU) (vx byte : Nat) : CPU :=
  c.skip_if (c.regs vx != byte)

/-- cpu.rs: CPU::skip_eq_reg. -/
def CPU.skip_eq_reg (c : CPU) (vx vy : Nat) : CPU :=
  c.skip_if (c.regs vx == c.regs vy)

/-- cpu.rs: CPU::skip_neq_reg. -/
def CPU.skip_neq_reg (c : CPU) (vx vy : Nat) : CPU :=
  c.skip_if (c.regs vx != c.regs vy)

/-- cpu.rs: CPU::load — regs[vx] = byte. -/
def CPU.load (c : CPU) (vx byte : Nat) : CPU :=
  { c with regs := Regs.set c.regs vx byte }

/-- cpu.rs: CPU::load_r — regs[vx] = regs[vy]. -/
def CPU.load_r (c : CPU) (vx vy : Nat) : CPU :=
  { c with regs := Regs.set c.regs vx (c.regs vy) }

/-- cpu.rs: CPU::add — regs[vx] = regs[vx].wrapping_add(byte). -/
def CPU.add (c : CPU) (vx byte : Nat) : CPU :=
  { c with regs := Regs.set c.regs vx ((c.regs vx + byte) % 256) }

/-- cpu.rs: CPU::or. -/
def CPU.or (c : CPU) (vx vy : Nat) : CPU :=
  { c with regs := Regs.set c.regs vx (c.regs vx ||| c.regs vy) }

/-- cpu.rs: CPU::and. -/
def CPU.and (c : CPU) (vx vy : Nat) : CPU :=
  { c with regs := Regs.set c.regs vx (c.regs vx &&& c.regs vy) }

/-- cpu.rs: CPU::xor. -/
def CPU.xor (c : CPU) (vx vy : Nat) : CPU :=
  { c with regs := Regs.set c.regs vx (c.regs vx ^^^ c.regs vy) }

/-- cpu.rs: CPU::addr — overflowing_add of regs[vx] and regs[vy]; the
flag register 0xF is written BEFORE the wrapped sum is stored in vx. -/
def CPU.addr (c : CPU) (vx vy : Nat) : CPU :=
  let r := overflowing_add8 (c.regs vx) (c.regs vy)
  { c with regs :=
      Regs.set (Regs.set c.regs 0xF (if r.2 then 1 else 0)) vx r.1 }

/-- cpu.rs: CPU::subr — overflowing_sub of regs[vx] and regs[vy]; the
flag register 0xF gets 1 when NO borrow occurred, and is written BEFORE
the wrapped difference is stored in vx. -/
def CPU.subr (c : CPU) (vx vy : Nat) : CPU :=
  let r := overflowing_sub8 (c.regs vx) (c.regs vy)
  { c with regs :=
      Regs.set (Regs.set c.regs 0xF (if !r.2 then 1 else 0)) vx r.1 }

/-- cpu.rs: CPU::shr — overflowing_shr by 1; the flag register is
written from the overflow report (which is false for shift amount 1),
then the shifted value is stored. -/
def CPU.shr (c : CPU) (vx : Nat) : CPU :=
  let r := overflowing_shr8 (c.regs vx) 1
  { c with regs :=
      Regs.set (Regs.set c.regs 0xF (if r.2 then 1 else 0)) vx r.1 }

/-- cpu.rs: CPU::subrn — overflowing_sub of regs[vy] and regs[vx],
stored into vx, flag 1 when no borrow, flag written first. -/
def CPU.subrn (c : CPU) (vx vy : Nat) : CPU :=
  let r := overflowing_sub8 (c.regs vy) (c.regs vx)
  { c with regs :=
      Regs.set (Regs.set c.regs 0xF (if !r.2 then 1 else 0)) vx r.1 }

/-- cpu.rs: CPU::shl — overflowing_shl by 1; the flag register is
written from the overflow report (false for shift amount 1), then the
wrapped shifted value is stored. -/
def CPU.shl (c : CPU) (vx : Nat) : CPU :=
  let r := overflowing_shl8 (c.regs vx) 1
  { c with regs :=
      Regs.set (Regs.set c.regs 0xF (if r.2 then 1 else 0)) vx r.1 }

/-- cpu.rs: CPU::ldi — i = addr. -/
def CPU.ldi (c : CPU) (a : Nat) : CPU :=
  { c with i := a }

/-- cpu.rs: CPU::jpoff — pc = regs[0] as u16 + addr (u16 add). -/
def CPU.jpoff (c : CPU) (a : Nat) : CPU :=
  { c with pc := (c.regs 0 + a) % 65536 }

/-- cpu.rs: CPU::rnd — regs[vx] = random_u8 & byte; the random byte r
is supplied externally (rand::random cast to u8). -/
def CPU.rnd (c : CPU) (r vx byte : Nat) : CPU :=
  { c with regs := Regs.set c.regs vx ((r % 256) &&& byte) }

/-- cpu.rs: CPU::dtset — dt = regs[vx]. -/
def CPU.dtset (c : CPU) (vx : Nat) : CPU :=
  { c with dt := c.regs vx }

/-- cpu.rs: CPU::dtget — regs[vx] = dt. -/
def CPU.dtget (c : CPU) (vx : Nat) : CPU :=
  { c with regs := Regs.set c.regs vx c.dt }

/-- cpu.rs: CPU::stset — st = regs[vx]. -/
def CPU.stset (c : CPU) (vx : Nat) : CPU :=
  { c with st := c.regs vx }

/-- cpu.rs: CPU::iinc — i += regs[vx] (u16 add). -/
def CPU.iinc (c : CPU) (vx : Nat) : CPU :=
  { c with i := (c.i + c.regs vx) % 65536 }

/-- input.rs: struct Keyboard — 16 boolean key states, as a total map. -/
structure Keyboard where
  states : Nat → Bool

/-- input.rs: Keyboard::new. -/
def Keyboard.new : Keyboard := ⟨fun _ => false⟩

/-- input.rs: Keyboard::get. -/
def Keyboard.get (k : Keyboard) (idx : Nat) : Bool := k.states idx

/-- input.rs: Keyboard::down_key — lowest pressed index, if any. -/
def Keyboard.down_key (k : Keyboard) : Option Nat :=
  (List.range 16).find? fun j => k.states j

/-- mem.rs: struct Mem — the 4096-byte cell array as a total map (loads
and stores of indices at 4096 and beyond abort, see load/store), plus
the remembered font base address. -/
structure Mem where
  cells : Nat → Nat
  start_addr : Nat

/-- mem.rs: Mem::new — zeroed cells, font base 0. -/
def Mem.new : Mem := { cells := fun _ => 0, start_addr := 0 }

/-- mem.rs: Mem::store — cells[i] = v; indexing at or past 4096 panics
(none). -/
def Mem.store (m : Mem) (i v : Nat) : Option Mem :=
  if i < 4096 then
    some { m with cells := fun j => if j = i then v else m.cells j }
  else none

/-- mem.rs: Mem::load — cells[i]; indexing at or past 4096 panics
(none). -/
def Mem.load (m : Mem) (i : Nat) : Option Nat :=
  if i < 4096 then some (m.cells i) else none

/-- mem.rs: the safe single-index Mem::get (slice get), none out of
range. -/
def Mem.get1 (m : Mem) (i : Nat) : Option Nat :=
  if i < 4096 then some (m.cells i) else none

/-- mem.rs: Mem::store_arr — store a byte slice at addr, each byte at
addr + idx (u16 add). -/
def Mem.store_arr (m : Mem) (addr : Nat) : List Nat → Nat → Option Mem
  | [], _ => some m
  | v :: vs, idx =>
      match m.store ((addr + idx) % 65536) v with
      | none => none
      | some m2 => Mem.store_arr m2 addr vs (idx + 1)

/-- mem.rs: Mem::addr_of_font — start_addr + 5 * digit (u16). -/
def Mem.addr_of_font (m : Mem) (digit : Nat) : Nat :=
  (m.start_addr + 5 * digit) % 65536

/-- display.rs: struct Screen — the 32 x 64 pixel grid as a total map,
row index first. -/
structure Screen where
  pixels : Nat → Nat → Bool

/-- display.rs: Screen::new — all pixels off. -/
def Screen.new : Screen := ⟨fun _ _ => false⟩

/-- display.rs: Screen::clear — every pixel false. -/
def Screen.clear (_ : Screen) : Screen := ⟨fun _ _ => false⟩

/-- display.rs: Screen::get — read at coordinates wrapped mod 64 / 32. -/
def Screen.get (s : Screen) (x y : Nat) : Bool :=
  s.pixels (y % 32) (x % 64)

/-- display.rs: Screen::xor — wrap x mod COLS = 64 and y mod ROWS = 32,
xor the value into the pixel, and return true exactly when the pixel
changed from true to false (was AND NOT new). -/
def Screen.xor (s : Screen) (x y : Nat) (v : Bool) : Screen × Bool :=
  let xm := x % 64
  let ym := y % 32
  let was := s.pixels ym xm
  (⟨fun yy xx => if yy = ym ∧ xx = xm then Bool.xor was v else s.pixels yy xx⟩,
   was && !(Bool.xor was v))

/-- display.rs: bools_from_byte — bit x of the byte lands at index
7 - x, so index j holds bit 7 - j (most significant bit first). -/
def bools_from_byte (v : Nat) : List Bool :=
  (List.range 8).map fun j => decide (0 < ((1 <<< (7 - j)) &&& v))

/-- display.rs: byte_from_bools — index i contributes 1 << (7 - i). -/
def byte_from_bools (v : List Bool) : Nat :=
  (List.range 8).foldl (fun r j => if v.getD j false then r + (1 <<< (7 - j)) else r) 0

/-- display.rs: Screen::xor_bytes, one row per sprite byte.  Indexing
pixels[y + bidx] panics (none) from row 32 on; the slice get_mut of
columns x..x+8 yields Some only when x + 8 <= 64, otherwise the row is
silently skipped; on a processed row the 8 pixels are xored as a byte
and the running flag is or-ed with (old_byte AND new_byte) != 0. -/
def Screen.xor_bytes_go (s : Screen) (x y : Nat) :
    List Nat → Nat → Bool → Option (Screen × Bool)
  | [], _, ov => some (s, ov)
  | b :: bs, bidx, ov =>
      if y + bidx < 32 then
        if x + 8 ≤ 64 then
          let pix_bools := (List.range 8).map fun j => s.pixels (y + bidx) (x + j)
          let pix_byte := byte_from_bools pix_bools
          let xored := pix_byte ^^^ b
          let muts := bools_from_byte xored
          let s2 : Screen :=
            ⟨fun yy xx =>
              if yy = y + bidx ∧ x ≤ xx ∧ xx < x + 8 then muts.getD (xx - x) false
              else s.pixels yy xx⟩
          Screen.xor_bytes_go s2 x y bs (bidx + 1)
            (ov || decide (0 < (pix_byte &&& byte_from_bools muts)))
        else Screen.xor_bytes_go s x y bs (bidx + 1) ov
      else none

/-- display.rs: Screen::xor_bytes. -/
def Screen.xor_bytes (s : Screen) (x y : Nat) (bytes : List Nat) :
    Option (Screen × Bool) :=
  Screen.xor_bytes_go s x y bytes 0 false

/-- emulator.rs: struct Emulator. -/
structure Emulator where
  cpu : CPU
  mem : Mem
  scr : Screen
  kbd : Keyboard

/-- emulator.rs: Emulator::new. -/
def Emulator.new : Emulator :=
  { cpu := CPU.new, mem := Mem.new, scr := Screen.new, kbd := Keyboard.new }

/-- emulator.rs: the inner bit loop of Emulator::draw.  For each bit
index the sprite bit is rotate_left(bit + 1) AND 1 of the row byte
(most significant bit first); the target coordinates are the u8 sums
vx + bit and vy + line (wrapping mod 256); the collision flag is or-ed
with the xor result of every pixel (the non-short-circuiting | of the
source). -/
def Emulator.drawBits (vxv vyv line byte : Nat) :
    List Nat → Screen → Bool → Screen × Bool
  | [], s, coll => (s, coll)
  | bit :: bits, s, coll =>
      let r := Screen.xor s ((vxv + bit) % 256) ((vyv + line) % 256)
        ((rotateLeft8 byte (bit + 1)) &&& 1 == 1)
      Emulator.drawBits vxv vyv line byte bits r.1 (coll || r.2)

/-- emulator.rs: the line loop of Emulator::draw — load the row byte at
i + line (u16 add, aborting on an out-of-range memory index) and xor
its 8 bits into the screen. -/
def Emulator.drawLines (m : Mem) (i vxv vyv : Nat) :
    List Nat → Screen → Bool → Option (Screen × Bool)
  | [], s, coll => some (s, coll)
  | l :: ls, s, coll =>
      match m.load ((i + l) % 65536) with
      | none => none
      | some byte =>
          let r := Emulator.drawBits vxv vyv l byte (List.range 8) s coll
          Emulator.drawLines m i vxv vyv ls r.1 r.2

/-- emulator.rs: Emulator::draw — read the coordinate registers, xor
the n sprite rows, and finally overwrite the flag register 0xF with 1
exactly when some pixel flipped from set to unset. -/
def Emulator.draw (e : Emulator) (vx vy n : Nat) : Option Emulator :=
  let vxv := e.cpu.regs vx
  let vyv := e.cpu.regs vy
  (Emulator.drawLines e.mem e.cpu.i vxv vyv (List.range n) e.scr false).map
    fun r =>
      { e with scr := r.1,
               cpu := { e.cpu with
                 regs := Regs.set e.cpu.regs 0xF (if r.2 then 1 else 0) } }

/-- emulator.rs: Emulator::split_val — decimal digits of a byte. -/
def Emulator.split_val (v : Nat) : List Nat :=
  [v / 100, (v / 10) % 10, v % 10]

/-- emulator.rs: Emulator::bcd — store the three decimal digits of
regs[vx] at i, i + 1, i + 2 (u16 adds, aborting stores past memory). -/
def Emulator.bcd (e : Emulator) (vx : Nat) : Option Emulator :=
  match e.mem.store e.cpu.i (e.cpu.regs vx / 100) with
  | none => none
  | some m1 =>
      match m1.store ((e.cpu.i + 1) % 65536) ((e.cpu.regs vx / 10) % 10) with
      | none => none
      | some m2 =>
          match m2.store ((e.cpu.i + 2) % 65536) (e.cpu.regs vx % 10) with
          | none => none
          | some m3 => some { e with mem := m3 }

/-- emulator.rs: Emulator::idig — i = addr_of_font(regs[vx]). -/
def Emulator.idig (e : Emulator) (vx : Nat) : Emulator :=
  { e with cpu := { e.cpu with i := e.mem.addr_of_font (e.cpu.regs vx) } }

/-- emulator.rs: Emulator::keyset — if some key is down, regs[vx] gets
its index. -/
def Emulator.keyset (e : Emulator) (vx : Nat) : Emulator :=
  match e.kbd.down_key with
  | some idx => { e with cpu := { e.cpu with regs := Regs.set e.cpu.regs vx idx } }
  | none => e

/-- emulator.rs: Emulator::regsload — for offsets 0..=vx, if memory
index i + offset (usize add) is in range, regs[offset] gets that cell. -/
def Emulator.regsload (e : Emulator) (vx : Nat) : Regs :=
  (List.range (vx + 1)).foldl
    (fun rg off =>
      match e.mem.get1 (e.cpu.i + off) with
      | some val => Regs.set rg off val
      | none => rg)
    e.cpu.regs

/-- emulator.rs: Emulator::exec — dispatch one decoded operation.  The
random byte r models rand::random for RND.  Control flow (JP, CALL,
JPOFF and the skip family) sets pc itself; every other arm, including
RET, additionally advances pc by 2. -/
def Emulator.exec (r : Nat) (op : Opcode) (e : Emulator) : Option Emulator :=
  match op with
  | Opcode.CLS => some { e with scr := e.scr.clear, cpu := e.cpu.inc_pc }
  | Opcode.RET => (e.cpu.ret).map fun c => { e with cpu := c.inc_pc }
  | Opcode.JP a => some { e with cpu := { e.cpu with pc := a } }
  | Opcode.CALL a => some { e with cpu := e.cpu.call a }
  | Opcode.SE vx byte => some { e with cpu := e.cpu.skip_eq vx byte }
  | Opcode.SNE vx byte => some { e with cpu := e.cpu.skip_neq vx byte }
  | Opcode.SER vx vy => some { e with cpu := e.cpu.skip_eq_reg vx vy }
  | Opcode.LD vx byte => some { e with cpu := (e.cpu.load vx byte).inc_pc }
  | Opcode.ADD vx byte => some { e with cpu := (e.cpu.add vx byte).inc_pc }
  | Opcode.LDR vx vy => some { e with cpu := (e.cpu.load_r vx vy).inc_pc }
  | Opcode.AND vx vy => some { e with cpu := (e.cpu.and vx vy).inc_pc }
  | Opcode.OR vx vy => some { e with cpu := (e.cpu.or vx vy).inc_pc }
  | Opcode.XOR vx vy => some { e with cpu := (e.cpu.xor vx vy).inc_pc }
  | Opcode.ADDR vx vy => some { e with cpu := (e.cpu.addr vx vy).inc_pc }
  | Opcode.SUBR vx vy => some { e with cpu := (e.cpu.subr vx vy).inc_pc }
  | Opcode.SHR vx => some { e with cpu := (e.cpu.shr vx).inc_pc }
  | Opcode.SUBRN vx vy => some { e with cpu := (e.cpu.subrn vx vy).inc_pc }
  | Opcode.SHL vx => some { e with cpu := (e.cpu.shl vx).inc_pc }
  | Opcode.SNER vx vy => some { e with cpu := e.cpu.skip_neq_reg vx vy }
  | Opcode.LDI a => some { e with cpu := (e.cpu.ldi a).inc_pc }
  | Opcode.JPOFF a => some { e with cpu := e.cpu.jpoff a }
  | Opcode.RND vx byte => some { e with cpu := (e.cpu.rnd r vx byte).inc_pc }
  | Opcode.DRW vx vy n =>
      (Emulator.draw e vx vy n).map fun e2 => { e2 with cpu := e2.cpu.inc_pc }
  | Opcode.SKP vx => some { e with cpu := e.cpu.skip_if (e.kbd.get vx) }
  | Opcode.SKNP vx => some { e with cpu := e.cpu.skip_if (!(e.kbd.get vx)) }
  | Opcode.KEYSET vx =>
      let e2 := Emulator.keyset e vx
      some { e2 with cpu := e2.cpu.inc_pc }
  | Opcode.DTSET vx => some { e with cpu := (e.cpu.dtset vx).inc_pc }
  | Opcode.DTGET vx => some { e with cpu := (e.cpu.dtget vx).inc_pc }
  | Opcode.STSET vx => some { e with cpu := (e.cpu.stset vx).inc_pc }
  | Opcode.IINC vx => some { e with cpu := (e.cpu.iinc vx).inc_pc }
  | Opcode.IDIG vx =>
      let e2 := Emulator.idig e vx
      some { e2 with cpu := e2.cpu.inc_pc }
  | Opcode.BCD vx =>
      (Emulator.bcd e vx).map fun e2 => { e2 with cpu := e2.cpu.inc_pc }
  | Opcode.REGSSTORE vx =>
      (Mem.store_arr e.mem e.cpu.i ((List.range (vx + 1)).map e.cpu.regs) 0).map
        fun m2 => { e with mem := m2, cpu := e.cpu.inc_pc }
  | Opcode.REGLOAD vx =>
      some { e with cpu := { e.cpu with regs := Emulator.regsload e vx }.inc_pc }

/-- emulator.rs: Emulator::load_instr — big-endian 16-bit word from the
bytes at i and i + 1 (u16 add), aborting on an out-of-range load. -/
def Emulator.load_instr (e : Emulator) (i : Nat) : Option Nat :=
  match e.mem.load i with
  | none => none
  | some bh =>
      match e.mem.load ((i + 1) % 65536) with
      | none => none
      | some bl => some ((bh <<< 8) ||| bl)

/-- emulator.rs: Emulator::fetch — load the word at pc, decode it, and
record the decoded operation in cpu.instr; returns the decoded
operation alongside the updated emulator. -/
def Emulator.fetch (e : Emulator) : Option (Emulator × Option Opcode) :=
  match Emulator.load_instr e e.cpu.pc with
  | none => none
  | some w =>
      let op := Opcode.fromInstr w
      some ({ e with cpu := { e.cpu with instr := op } }, op)

/-- emulator.rs: Emulator::step — fetch, and execute when the fetch
decodes; a decode failure leaves everything but cpu.instr unchanged. -/
def Emulator.step (r : Nat) (e : Emulator) : Option Emulator :=
  match Emulator.fetch e with
  | none => none
  | some (e1, none) => some e1
  | some (e1, some op) => Emulator.exec r op e1

/-- A finite sequence of fetch/decode/execute steps, one external
random byte per step. -/
def Emulator.stepsRun : List Nat → Emulator → Option Emulator
  | [], e => some e
  | r :: rs, e =>
      match Emulator.step r e with
      | none => none
      | some e2 => Emulator.stepsRun rs e2

/-- emulator.rs: Emulator::tick — checked_sub 1 on each timer (a timer
at 0 stays 0), returning the new (dt, st) pair. -/
def Emulator.tick (e : Emulator) : Emulator × (Nat × Nat) :=
  let dt2 := match checked_sub e.cpu.dt 1 with
    | some v => v
    | none => e.cpu.dt
  let st2 := match checked_sub e.cpu.st 1 with
    | some v => v
    | none => e.cpu.st
  ({ e with cpu := { e.cpu with dt := dt2, st := st2 } }, (dt2, st2))

/-- Iterated tick. -/
def Emulator.tickN : Nat → Emulator → Emulator
  | 0, e => e
  | k + 1, e => Emulator.tickN k (Emulator.tick e).1

/-! ## Specification-side definitions (spec.md, section 4.3)

These definitions follow the words of the specification, to be compared
with the embedded code. -/

/-- Spec section 4.3: XOR one sprite bit into the pixel at (px, py)
with wraparound modulo (64, 32) applied independently per axis. -/
def specXorPixel (s : Screen) (px py : Nat) (b : Bool) : Screen :=
  ⟨fun yy xx =>
    if yy = py % 32 ∧ xx = px % 64 then
      Bool.xor (s.pixels (py % 32) (px % 64)) b
    else s.pixels yy xx⟩

/-- Spec section 4.3: one sprite row — for each listed column c (most
significant bit first, bit 7 - c of the row byte), XOR that bit into
the pixel at (x + c, y + row). -/
def specDrawCols (x y row byte : Nat) : List Nat → Screen → Screen
  | [], s => s
  | c :: cs, s =>
      specDrawCols x y row byte cs
        (specXorPixel s (x + c) (y + row) ((byte >>> (7 - c)) &&& 1 == 1))

/-- Spec section 4.3: the sprite rows, top to bottom, each row drawing
its 8 columns. -/
def specDrawRows (x y : Nat) : Nat → List Nat → Screen → Screen
  | _, [], s => s
  | row, b :: bs, s =>
      specDrawRows x y (row + 1) bs (specDrawCols x y row b (List.range 8) s)

/-- Spec section 4.3: draw(x, y, sprite) as the specification words it. -/
def drawSpecScreen (s : Screen) (x y : Nat) (sprite : List Nat) : Screen :=
  specDrawRows x y 0 sprite s

/-- The n sprite bytes the draw loop reads: memory cells at i + line
(u16 add), line = 0..n. -/
def spriteAt (m : Mem) (i n : Nat) : List Nat :=
  (List.range n).map fun l => m.cells ((i + l) % 65536)

/-- Collision as the specification defines it: some touched pixel
transitioned from set to unset, i.e. some sprite row l < n and column
c < 8 whose sprite bit is set hits a pixel (wrapped per axis) that was
set before the draw.  For n <= 15 rows every touched pixel is touched
exactly once, so a set pixel meeting a set sprite bit is exactly a
set-to-unset transition. -/
def collisionSpecB (e : Emulator) (vx vy n : Nat) : Bool :=
  (List.range n).any fun l =>
    (List.range 8).any fun c =>
      e.scr.pixels ((e.cpu.regs vy + l) % 32) ((e.cpu.regs vx + c) % 64) &&
        ((e.mem.cells ((e.cpu.i + l) % 65536) >>> (7 - c)) &&& 1 == 1)

/-! ## Concrete states used by counterexamples and witnesses -/

/-- A CPU with V0 = 1 (for the right-shift flag check). -/
def cpuShr : CPU :=
  { CPU.new with regs := fun j => if j = 0 then 1 else 0 }

/-- A CPU with V0 = 0x80 (for the left-shift flag check). -/
def cpuShl : CPU :=
  { CPU.new with regs := fun j => if j = 0 then 128 else 0 }

/-- A CPU with VF = 200 and V1 = 100 (for the x = 0xF flag check). -/
def cpuFlagX : CPU :=
  { CPU.new with regs := fun j => if j = 15 then 200 else if j = 1 then 100 else 0 }

/-- A CPU with V2 = 200 and V3 = 100 (for the amended flag law witness). -/
def cpuFlagW : CPU :=
  { CPU.new with regs := fun j => if j = 2 then 200 else if j = 3 then 100 else 0 }

/-- An emulator whose call stack holds the single return address 0x300,
with sp = 1 and pc = 0x200. -/
def emuRet : Emulator :=
  { Emulator.new with
    cpu := { CPU.new with pc := 0x200, sp := 1, stack := [0x300] } }

/-- The state the embedded code produces from emuRet on RET. -/
def emuRetOut : Emulator :=
  { emuRet with cpu := { emuRet.cpu with pc := 0x302, sp := 0, stack := [] } }

/-- An emulator with an empty call stack, pc = 0x200 and some nonzero
scattered state. -/
def emuEmpty : Emulator :=
  { Emulator.new with
    cpu := { CPU.new with
      pc := 0x200, i := 5, dt := 3, st := 4,
      regs := fun j => if j = 2 then 7 else 0 } }

/-- The state the embedded code produces from emuEmpty on RET. -/
def emuEmptyOut : Emulator :=
  { emuEmpty with cpu := { emuEmpty.cpu with pc := 0x202 } }

/-- A screen whose only lit pixel is (0, 0). -/
def screenOnePixel : Screen := ⟨fun yy xx => yy == 0 && xx == 0⟩

/-- An emulator with pixel (0, 0) lit and the single sprite byte 0x80
at memory address 0 (registers all zero, so a draw at (V0, V1) touches
the top-left corner). -/
def emuDraw : Emulator :=
  { Emulator.new with
    scr := screenOnePixel,
    mem := { Mem.new with cells := fun j => if j = 0 then 128 else 0 } }

/-! ## Theorems -/

/-- C1: the claim that decode(encode(op)) = op holds across every table
entry with operands spanning their full ranges fails at the Random
operation 0xCxkk: encoding RND(0, 0xAB) shifts the byte operand into
the y-nibble position (word 0xCAB0) and decoding reads back only
nibbles, yielding RND(0xA, 0xB).  This evaluates the codec at that
failing input. -/
theorem C1_rnd_roundtrip_violation :
    Opcode.fromInstr (Opcode.RND 0x0 0xAB).to_instr = some (Opcode.RND 0xA 0xB) ∧
    Opcode.fromInstr (Opcode.RND 0x0 0xAB).to_instr ≠ some (Opcode.RND 0x0 0xAB) := by
  decide

/-- C2: the claim that ShiftRight/ShiftLeft set VF to the shifted-out
bit fails: overflowing_shr(1) / overflowing_shl(1) report a
shift-amount overflow, which is false for shift 1, so the flag register
is always written 0.  Evaluated with V0 = 1 (bit 0 set, right shift)
and V0 = 0x80 (bit 7 set, left shift): the claim demands VF = 1, the
code gives VF = 0 (the shifted register value itself is as claimed). -/
theorem C2_shift_flag_always_zero :
    (cpuShr.regs 0 % 2 = 1 ∧ (cpuShr.shr 0).regs 0xF = 0 ∧ (cpuShr.shr 0).regs 0 = 0)
    ∧ (cpuShl.regs 0 / 128 = 1 ∧ (cpuShl.shl 0).regs 0xF = 0 ∧ (cpuShl.shl 0).regs 0 = 0) := by
  decide

/-- C4: the claim that xor_bytes returns true iff some touched pixel
transitioned from set to unset fails in both directions: the code
accumulates (old_row AND new_row) != 0, i.e. "a touched set pixel
stayed set".  With only pixel (0,0) set, the sprite byte 0x80 flips
that pixel set-to-unset yet the call returns false, while the sprite
byte 0x00 flips nothing yet the call returns true. -/
theorem C4_xor_bytes_wrong_collision :
    screenOnePixel.pixels 0 0 = true
    ∧ (Screen.xor_bytes screenOnePixel 0 0 [128]).map (fun p => p.1.pixels 0 0) = some false
    ∧ (Screen.xor_bytes screenOnePixel 0 0 [128]).map (fun p => p.2) = some false
    ∧ (Screen.xor_bytes screenOnePixel 0 0 [0]).map (fun p => p.1.pixels 0 0) = some true
    ∧ (Screen.xor_bytes screenOnePixel 0 0 [0]).map (fun p => p.2) = some true := by
  decide

/-- C6 counterexample: at x = 0xF the claim fails — with VF = 200 and
V1 = 100, AddReg VF, V1 leaves VF = 44 (the wrapped sum, which
overwrites the flag written first), so VF does not equal the claimed
overflow flag 1. -/
theorem C6_flag_overwritten_at_xF :
    ¬ ((cpuFlagX.addr 15 1).regs 15 = (cpuFlagX.regs 15 + cpuFlagX.regs 1) % 256
       ∧ (cpuFlagX.addr 15 1).regs 15
          = (if 255 < cpuFlagX.regs 15 + cpuFlagX.regs 1 then 1 else 0)) := by
  decide

/-- C3 counterexample: with return address 0x300 on the stack, the exec
RET arm leaves PC = 0x302, not the popped address 0x300 — after
CPU::ret restores PC the execute stage still advances PC by 2. -/
theorem C3_ret_not_exact_pop :
    emuRet.cpu.stack = [0x300]
    ∧ (Emulator.exec 0 Opcode.RET emuRet).map (fun e2 => e2.cpu.pc) = some 0x302
    ∧ (0x302 : Nat) ≠ 0x300 := by
  refine ⟨rfl, rfl, by decide⟩

/-- C7 counterexample: Return on an empty call stack is not a complete
no-op — the exec RET arm still advances PC by 2 (from 0x200 to 0x202),
so the state is not left entirely unchanged. -/
theorem C7_empty_ret_changes_state :
    emuEmpty.cpu.stack = []
    ∧ (Emulator.exec 0 Opcode.RET emuEmpty).map (fun e2 => e2.cpu.pc) = some 0x202
    ∧ Emulator.exec 0 Opcode.RET emuEmpty ≠ some emuEmpty := by
  refine ⟨rfl, rfl, fun h => ?_⟩
  have h2 : (Emulator.exec 0 Opcode.RET emuEmpty).map (fun e2 => e2.cpu.pc)
      = some 0x200 := by rw [h]; rfl
  have h3 : (Emulator.exec 0 Opcode.RET emuEmpty).map (fun e2 => e2.cpu.pc)
      = some 0x202 := rfl
  rw [h3] at h2
  exact absurd h2 (by decide)

/-- C3 (amended): whenever the call stack is nonempty, executing Return
pops the stack and then the execute stage advances PC by 2, so PC ends
at the popped return address + 2 (mod 2^16); the popped entry is
removed and the stack pointer ends equal to the remaining depth. -/
theorem C3_ret_pops_then_advances :
    ∀ (r : Nat) (e : Emulator) (a : Nat) (rest : List Nat) (e2 : Emulator),
      e.cpu.stack = a :: rest →
      Emulator.exec r Opcode.RET e = some e2 →
      e2.cpu.pc = (a + 2) % 65536 ∧ e2.cpu.stack = rest
        ∧ e2.cpu.sp = rest.length := by
  intro r e a rest e2 hstack hex
  simp only [Emulator.exec, CPU.ret, hstack] at hex
  split at hex
  · rename_i hsp
    simp only [Option.map_some', Option.some.injEq] at hex
    subst hex
    exact ⟨rfl, rfl, hsp⟩
  · simp at hex

/-- Witness for C3: the amended theorem applied to the concrete state
with return address 0x300 on the stack. -/
theorem C3_ret_pops_then_advances_witness :
    emuRetOut.cpu.pc = (0x300 + 2) % 65536 ∧ emuRetOut.cpu.stack = []
      ∧ emuRetOut.cpu.sp = ([] : List Nat).length :=
  C3_ret_pops_then_advances 0 emuRet 0x300 [] emuRetOut rfl rfl

/-- C7 (amended): executing Return with an empty call stack leaves the
registers, I, SP, stack, timers, memory, display and keyboard
unchanged, but PC still advances by 2 (mod 2^16): CPU::ret itself is a
strict no-op, while the exec RET arm applies its unconditional PC
advance. -/
theorem C7_empty_ret_advances_pc :
    ∀ (r : Nat) (e e2 : Emulator), e.cpu.stack = [] →
      Emulator.exec r Opcode.RET e = some e2 →
      e2.cpu.pc = (e.cpu.pc + 2) % 65536 ∧ e2.cpu.regs = e.cpu.regs
        ∧ e2.cpu.i = e.cpu.i ∧ e2.cpu.sp = e.cpu.sp ∧ e2.cpu.stack = []
        ∧ e2.cpu.dt = e.cpu.dt ∧ e2.cpu.st = e.cpu.st
        ∧ e2.mem = e.mem ∧ e2.scr = e.scr ∧ e2.kbd = e.kbd := by
  intro r e e2 hstack hex
  simp only [Emulator.exec, CPU.ret, hstack, Option.map_some',
    Option.some.injEq] at hex
  subst hex
  refine ⟨rfl, rfl, rfl, rfl, ?_, rfl, rfl, rfl, rfl, rfl⟩
  simpa [CPU.inc_pc] using hstack

/-- Witness for C7: the amended theorem applied to the concrete
empty-stack state. -/
theorem C7_empty_ret_advances_pc_witness :
    emuEmptyOut.cpu.pc = (emuEmpty.cpu.pc + 2) % 65536
      ∧ emuEmptyOut.cpu.regs = emuEmpty.cpu.regs
      ∧ emuEmptyOut.cpu.i = emuEmpty.cpu.i
      ∧ emuEmptyOut.cpu.sp = emuEmpty.cpu.sp ∧ emuEmptyOut.cpu.stack = []
      ∧ emuEmptyOut.cpu.dt = emuEmpty.cpu.dt
      ∧ emuEmptyOut.cpu.st = emuEmpty.cpu.st
      ∧ emuEmptyOut.mem = emuEmpty.mem ∧ emuEmptyOut.scr = emuEmpty.scr
      ∧ emuEmptyOut.kbd = emuEmpty.kbd :=
  C7_empty_ret_advances_pc 0 emuEmpty emuEmptyOut rfl rfl

/-- C6 (amended): for every pair of register indices with x different
from 0xF and 8-bit contents a = Vx, b = Vy, AddReg stores (a + b) mod
256 in Vx and sets VF to 1 iff a + b > 255, and SubReg stores
(a - b) mod 256 (as a + 256 - b mod 256) in Vx and sets VF to 1 iff
b <= a.  When x = 0xF the flag written first is overwritten by the
arithmetic result (see the counterexample), which is what forces the
x = 0xF exclusion. -/
theorem C6_arith_flag_laws :
    ∀ (c : CPU) (x y : Nat), x ≠ 15 →
      c.regs x < 256 → c.regs y < 256 →
      ((c.addr x y).regs x = (c.regs x + c.regs y) % 256
        ∧ (c.addr x y).regs 15 = (if 255 < c.regs x + c.regs y then 1 else 0))
      ∧ ((c.subr x y).regs x = (c.regs x + 256 - c.regs y) % 256
        ∧ (c.subr x y).regs 15 = (if c.regs y ≤ c.regs x then 1 else 0)) := by
  intro c x y hx ha hb
  have h15 : (15 : Nat) ≠ x := fun h => hx h.symm
  unfold CPU.addr CPU.subr overflowing_add8 overflowing_sub8 Regs.set
  dsimp only
  rw [Nat.mod_eq_of_lt hb]
  refine ⟨⟨?_, ?_⟩, ⟨?_, ?_⟩⟩
  · simp
  · rw [if_neg h15, if_pos rfl]
    by_cases h : 256 ≤ c.regs x + c.regs y
    · rw [if_pos (by simp [h]), if_pos (by omega)]
    · rw [if_neg (by simp [h]), if_neg (by omega)]
  · simp
  · rw [if_neg h15, if_pos rfl]
    by_cases h : c.regs x < c.regs y
    · rw [if_neg (by simp [h]), if_neg (by omega)]
    · rw [if_pos (by simp [h]), if_pos (by omega)]

/-- Witness for C6: the amended flag laws applied at x = 2, y = 3 with
V2 = 200, V3 = 100. -/
theorem C6_arith_flag_laws_witness :
    ((cpuFlagW.addr 2 3).regs 2 = (cpuFlagW.regs 2 + cpuFlagW.regs 3) % 256
      ∧ (cpuFlagW.addr 2 3).regs 15
        = (if 255 < cpuFlagW.regs 2 + cpuFlagW.regs 3 then 1 else 0))
    ∧ ((cpuFlagW.subr 2 3).regs 2
        = (cpuFlagW.regs 2 + 256 - cpuFlagW.regs 3) % 256
      ∧ (cpuFlagW.subr 2 3).regs 15
        = (if cpuFlagW.regs 3 ≤ cpuFlagW.regs 2 then 1 else 0)) :=
  C6_arith_flag_laws cpuFlagW 2 3 (by decide) (by decide) (by decide)

/-- C9: one tick decrements each timer by exactly 1 when positive and
leaves it at 0 when already 0 (natural-number saturating subtraction,
never wrapping), and returns the pair of new values; k repeated ticks
leave each timer at its initial value minus k, truncated at 0, so no
sequence of ticks drives a timer below 0. -/
theorem C9_tick_saturates :
    ∀ (e : Emulator),
      (Emulator.tick e).2 = (e.cpu.dt - 1, e.cpu.st - 1)
      ∧ ((Emulator.tick e).1.cpu.dt = e.cpu.dt - 1
          ∧ (Emulator.tick e).1.cpu.st = e.cpu.st - 1)
      ∧ (∀ k, (Emulator.tickN k e).cpu.dt = e.cpu.dt - k
          ∧ (Emulator.tickN k e).cpu.st = e.cpu.st - k) := by
  have hone : ∀ (e : Emulator), (Emulator.tick e).2 = (e.cpu.dt - 1, e.cpu.st - 1)
      ∧ (Emulator.tick e).1.cpu.dt = e.cpu.dt - 1
      ∧ (Emulator.tick e).1.cpu.st = e.cpu.st - 1 := by
    intro e
    by_cases hdt : 1 ≤ e.cpu.dt <;> by_cases hst : 1 ≤ e.cpu.st <;>
      simp [Emulator.tick, checked_sub, hdt, hst] <;> omega
  have hiter : ∀ (k : Nat) (e : Emulator),
      (Emulator.tickN k e).cpu.dt = e.cpu.dt - k
      ∧ (Emulator.tickN k e).cpu.st = e.cpu.st - k := by
    intro k
    induction k with
    | zero => intro e; exact ⟨rfl, rfl⟩
    | succ m ih =>
        intro e
        have h1 := hone e
        have h2 := ih (Emulator.tick e).1
        simp only [Emulator.tickN]
        constructor
        · rw [h2.1, h1.2.1]; omega
        · rw [h2.2, h1.2.2]; omega
  intro e
  exact ⟨(hone e).1, ⟨(hone e).2.1, (hone e).2.2⟩, fun k => hiter k e⟩

/-- Emulator::bcd only stores to memory: the CPU is untouched. -/
theorem bcd_keeps_cpu :
    ∀ (e e2 : Emulator) (vx : Nat), Emulator.bcd e vx = some e2 →
      e2.cpu = e.cpu := by
  intro e e2 vx h
  unfold Emulator.bcd at h
  split at h
  · cases h
  · split at h
    · cases h
    · split at h
      · cases h
      · simp only [Option.some.injEq] at h
        subst h
        rfl

/-- C8: the stack-pointer/call-depth invariant.  First part: in every
state reached from a freshly constructed emulator by a sequence of
fetch/decode/execute steps, sp equals the call-stack depth.  Second
part: the invariant is preserved by executing any single operation (for
call depths whose successor stays below 2^16, where the u16 stack
pointer cannot wrap): Call pushes one return address and increments sp
by 1, Return on a nonempty stack pops one address and decrements sp by
1, and no other operation touches sp or the stack. -/
theorem C8_sp_equals_stack_depth :
    (∀ (rands : List Nat) (e2 : Emulator),
        Emulator.stepsRun rands Emulator.new = some e2 →
        e2.cpu.sp = e2.cpu.stack.length)
    ∧ (∀ (r : Nat) (op : Opcode) (e e2 : Emulator),
        e.cpu.sp = e.cpu.stack.length → e.cpu.stack.length + 1 < 65536 →
        Emulator.exec r op e = some e2 → e2.cpu.sp = e2.cpu.stack.length) := by
  constructor
  · have hstep : ∀ r : Nat, Emulator.step r Emulator.new = some Emulator.new :=
      fun _ => rfl
    intro rands
    induction rands with
    | nil =>
        intro e2 h
        simp only [Emulator.stepsRun, Option.some.injEq] at h
        subst h; rfl
    | cons r rs ih =>
        intro e2 h
        simp only [Emulator.stepsRun, hstep] at h
        exact ih e2 h
  · intro r op e e2 hinv hlen hex
    cases op
    case RET =>
        simp only [Emulator.exec, Option.map_eq_some'] at hex
        obtain ⟨c, hret, he2⟩ := hex
        subst he2
        unfold CPU.ret at hret
        split at hret
        · rename_i hnil
          simp only [Option.some.injEq] at hret
          subst hret
          simpa [CPU.inc_pc, hnil] using hinv
        · rename_i a rest hcons
          split at hret
          · rename_i hsp
            simp only [Option.some.injEq] at hret
            subst hret
            simpa [CPU.inc_pc] using hsp
          · cases hret
    case CALL a =>
        simp only [Emulator.exec, Option.some.injEq] at hex
        subst hex
        simp only [CPU.call, List.length_cons]
        omega
    case DRW vx vy n =>
        simp only [Emulator.exec, Emulator.draw, Option.map_map,
          Option.map_eq_some'] at hex
        obtain ⟨p, _, he2⟩ := hex
        subst he2
        simpa [CPU.inc_pc] using hinv
    case KEYSET vx =>
        rcases hdk : e.kbd.down_key with _ | idx <;>
          simp only [Emulator.exec, Emulator.keyset, hdk,
            Option.some.injEq] at hex <;>
          subst hex <;> simpa [CPU.inc_pc] using hinv
    case BCD vx =>
        simp only [Emulator.exec, Option.map_eq_some'] at hex
        obtain ⟨eb, hb, he2⟩ := hex
        subst he2
        have hc := bcd_keeps_cpu e eb vx hb
        simp only [CPU.inc_pc, hc]
        exact hinv
    case REGSSTORE vx =>
        simp only [Emulator.exec, Option.map_eq_some'] at hex
        obtain ⟨m2, _, he2⟩ := hex
        subst he2
        simpa [CPU.inc_pc] using hinv
    all_goals
      simp only [Emulator.exec, Option.some.injEq] at hex
    all_goals subst hex
    all_goals
      simpa [CPU.inc_pc, CPU.call, CPU.skip_if, CPU.skip_eq, CPU.skip_neq,
        CPU.skip_eq_reg, CPU.skip_neq_reg, CPU.load, CPU.load_r, CPU.add,
        CPU.or, CPU.and, CPU.xor, CPU.addr, CPU.subr, CPU.shr, CPU.subrn,
        CPU.shl, CPU.ldi, CPU.jpoff, CPU.rnd, CPU.dtset, CPU.dtget,
        CPU.stset, CPU.iinc, Emulator.idig] using hinv

/-- Witness for C8: the invariant at the freshly constructed emulator
itself (the empty step sequence). -/
theorem C8_sp_equals_stack_depth_witness :
    Emulator.new.cpu.sp = Emulator.new.cpu.stack.length :=
  C8_sp_equals_stack_depth.1 [] Emulator.new rfl

/-! ## Helper lemmas about the draw loop -/

/-- The sprite bit the code extracts with rotate_left(bit + 1) AND 1 is
bit 7 - bit of the row byte (most significant bit first). -/
theorem bit_rotl_eq_shift :
    ∀ byte < 256, ∀ bit < 8,
      ((rotateLeft8 byte (bit + 1)) &&& 1 == 1)
        = ((byte >>> (7 - bit)) &&& 1 == 1) := by
  decide

/-- The collision report of a single xor is: the pixel was set and the
sprite bit is set. -/
theorem bool_was_and_not_xor (a b : Bool) : (a && !(Bool.xor a b)) = (a && b) := by
  cases a <;> cases b <;> rfl

/-- Reading the screen produced by Screen.xor. -/
theorem xor_fst_pixels (s : Screen) (x y : Nat) (v : Bool) (yy xx : Nat) :
    (Screen.xor s x y v).1.pixels yy xx
      = if yy = y % 32 ∧ xx = x % 64 then
          Bool.xor (s.pixels (y % 32) (x % 64)) v
        else s.pixels yy xx := rfl

/-- Screen.xor at u8-wrapped coordinates equals what the specification calls the
per-pixel XOR with wraparound modulo (64, 32), because 64 and 32 both
divide 256. -/
theorem xor_fst_spec (s : Screen) (x y : Nat) (v : Bool) :
    (Screen.xor s (x % 256) (y % 256) v).1 = specXorPixel s x y v := by
  unfold Screen.xor specXorPixel
  simp only [Nat.mod_mod_of_dvd x (by norm_num : (64:ℕ) ∣ 256),
    Nat.mod_mod_of_dvd y (by norm_num : (32:ℕ) ∣ 256)]

/-- The collision component of Screen.xor at u8-wrapped coordinates. -/
theorem xor_snd_spec (s : Screen) (x y : Nat) (v : Bool) :
    (Screen.xor s (x % 256) (y % 256) v).2
      = (s.pixels (y % 32) (x % 64) && v) := by
  unfold Screen.xor
  simp only [Nat.mod_mod_of_dvd x (by norm_num : (64:ℕ) ∣ 256),
    Nat.mod_mod_of_dvd y (by norm_num : (32:ℕ) ∣ 256)]
  exact bool_was_and_not_xor _ v

/-- Congruence for List.any under a pointwise-equal predicate. -/
theorem list_any_congr {α : Type} (p q : α → Bool) :
    ∀ (l : List α), (∀ a ∈ l, p a = q a) → l.any p = l.any q := by
  intro l
  induction l with
  | nil => intro _; rfl
  | cons a as ih =>
      intro h
      simp only [List.any_cons]
      rw [h a (List.mem_cons_self a as),
        ih fun c hc => h c (List.mem_cons_of_mem _ hc)]

/-- The 8 columns of one sprite row land on pairwise distinct wrapped
x coordinates. -/
theorem cols_pairwise (x : Nat) :
    (List.range 8).Pairwise fun b b2 => (x + b) % 64 ≠ (x + b2) % 64 := by
  refine List.Pairwise.imp_of_mem ?_ (List.pairwise_lt_range 8)
  intro a b ha hb hlt
  have ha8 : a < 8 := List.mem_range.mp ha
  have hb8 : b < 8 := List.mem_range.mp hb
  omega

/-- The screen part of the inner bit loop equals what the specification calls the
per-column XOR pass. -/
theorem drawBits_fst (xv yv l byte : Nat) (hbyte : byte < 256) :
    ∀ (bits : List Nat) (s : Screen) (coll : Bool),
      (∀ b ∈ bits, b < 8) →
      (Emulator.drawBits xv yv l byte bits s coll).1
        = specDrawCols xv yv l byte bits s := by
  intro bits
  induction bits with
  | nil => intro s coll _; rfl
  | cons b bs ih =>
      intro s coll hb
      simp only [Emulator.drawBits, specDrawCols]
      rw [bit_rotl_eq_shift byte hbyte b (hb b (List.mem_cons_self b bs)),
        xor_fst_spec]
      exact ih _ _ fun c hc => hb c (List.mem_cons_of_mem _ hc)

/-- The inner bit loop only writes pixels of its own wrapped row. -/
theorem drawBits_other_rows (xv yv l byte : Nat) :
    ∀ (bits : List Nat) (s : Screen) (coll : Bool) (yy xx : Nat),
      yy ≠ (yv + l) % 32 →
      (Emulator.drawBits xv yv l byte bits s coll).1.pixels yy xx
        = s.pixels yy xx := by
  intro bits
  induction bits with
  | nil => intro s coll yy xx _; rfl
  | cons b bs ih =>
      intro s coll yy xx hyy
      simp only [Emulator.drawBits]
      rw [ih _ _ _ _ hyy, xor_fst_pixels]
      rw [if_neg]
      rintro ⟨h1, _⟩
      rw [Nat.mod_mod_of_dvd (yv + l) (by norm_num : (32:ℕ) ∣ 256)] at h1
      exact hyy h1

/-- The collision component of the inner bit loop: the accumulator
or-ed with "some listed column hits a previously set pixel with a set
sprite bit", read off the screen the loop started from (the columns
write pairwise distinct pixels of a single row, so later reads are
unaffected by earlier writes). -/
theorem drawBits_snd (xv yv l byte : Nat) (hbyte : byte < 256) :
    ∀ (bits : List Nat) (s : Screen) (coll : Bool),
      (∀ b ∈ bits, b < 8) →
      List.Pairwise (fun b b2 => (xv + b) % 64 ≠ (xv + b2) % 64) bits →
      (Emulator.drawBits xv yv l byte bits s coll).2
        = (coll || bits.any fun b =>
            s.pixels ((yv + l) % 32) ((xv + b) % 64)
              && ((byte >>> (7 - b)) &&& 1 == 1)) := by
  intro bits
  induction bits with
  | nil => intro s coll _ _; simp [Emulator.drawBits]
  | cons b bs ih =>
      intro s coll hb hpw
      rw [List.pairwise_cons] at hpw
      simp only [Emulator.drawBits]
      rw [ih _ _ (fun c hc => hb c (List.mem_cons_of_mem _ hc)) hpw.2]
      have hrest :
          (bs.any fun c =>
            (Screen.xor s ((xv + b) % 256) ((yv + l) % 256)
              ((rotateLeft8 byte (b + 1)) &&& 1 == 1)).1.pixels
                ((yv + l) % 32) ((xv + c) % 64)
              && ((byte >>> (7 - c)) &&& 1 == 1))
          = (bs.any fun c =>
            s.pixels ((yv + l) % 32) ((xv + c) % 64)
              && ((byte >>> (7 - c)) &&& 1 == 1)) := by
        refine list_any_congr _ _ bs fun c hc => ?_
        rw [xor_fst_pixels, if_neg]
        rintro ⟨_, h2⟩
        rw [Nat.mod_mod_of_dvd (xv + b) (by norm_num : (64:ℕ) ∣ 256)] at h2
        exact hpw.1 c hc h2.symm
      rw [hrest,
        bit_rotl_eq_shift byte hbyte b (hb b (List.mem_cons_self b bs)),
        xor_snd_spec, List.any_cons, Bool.or_assoc]

/-- Loading a byte yields the cell value. -/
theorem Mem.load_eq_cells (m : Mem) (a b : Nat) :
    m.load a = some b → b = m.cells a := by
  unfold Mem.load
  split
  · intro h; exact (Option.some.inj h).symm
  · intro h; cases h

/-- The screen part of the line loop equals what the specification calls the
row-by-row pass over the sprite bytes the loop loads. -/
theorem drawLines_fst (m : Mem) (i xv yv : Nat) (hm : ∀ a, m.cells a < 256) :
    ∀ (j k : Nat) (s : Screen) (coll : Bool) (p : Screen × Bool),
      Emulator.drawLines m i xv yv (List.range' k j) s coll = some p →
      p.1 = specDrawRows xv yv k
        ((List.range' k j).map fun l => m.cells ((i + l) % 65536)) s := by
  intro j
  induction j with
  | zero =>
      intro k s coll p h
      simp only [List.range', Emulator.drawLines, Option.some.injEq] at h
      subst h
      rfl
  | succ j ih =>
      intro k s coll p h
      rw [List.range'_succ] at h
      simp only [Emulator.drawLines] at h
      cases hload : m.load ((i + k) % 65536) with
      | none => rw [hload] at h; cases h
      | some byte =>
          rw [hload] at h
          have hbyte : byte = m.cells ((i + k) % 65536) :=
            Mem.load_eq_cells m _ _ hload
          have hlt : byte < 256 := by rw [hbyte]; exact hm _
          have htail := ih (k + 1) _ _ _ h
          rw [List.range'_succ, List.map_cons]
          simp only [specDrawRows]
          rw [htail,
            drawBits_fst xv yv k byte hlt (List.range 8) s coll
              (fun c hc => List.mem_range.mp hc), hbyte]

/-- The collision component of the line loop: the accumulator or-ed
with "some listed row contains a colliding column", read off the
original screen (distinct listed rows write pairwise distinct wrapped
screen rows, so later rows read pixels the earlier rows did not
touch). -/
theorem drawLines_snd (m : Mem) (i xv yv : Nat) (hm : ∀ a, m.cells a < 256) :
    ∀ (j k : Nat) (s : Screen) (coll : Bool) (p : Screen × Bool),
      (∀ l1 l2, k ≤ l1 → l1 < k + j → k ≤ l2 → l2 < k + j → l1 ≠ l2 →
        (yv + l1) % 32 ≠ (yv + l2) % 32) →
      Emulator.drawLines m i xv yv (List.range' k j) s coll = some p →
      p.2 = (coll || (List.range' k j).any fun l =>
        (List.range 8).any fun c =>
          s.pixels ((yv + l) % 32) ((xv + c) % 64)
            && ((m.cells ((i + l) % 65536) >>> (7 - c)) &&& 1 == 1)) := by
  intro j
  induction j with
  | zero =>
      intro k s coll p _ h
      simp only [List.range', Emulator.drawLines, Option.some.injEq] at h
      subst h
      simp
  | succ j ih =>
      intro k s coll p hrow h
      rw [List.range'_succ] at h
      simp only [Emulator.drawLines] at h
      cases hload : m.load ((i + k) % 65536) with
      | none => rw [hload] at h; cases h
      | some byte =>
          simp only [hload] at h
          have hbyte : byte = m.cells ((i + k) % 65536) :=
            Mem.load_eq_cells m _ _ hload
          have hlt : byte < 256 := by rw [hbyte]; exact hm _
          have hhead := drawBits_snd xv yv k byte hlt (List.range 8) s coll
            (fun c hc => List.mem_range.mp hc) (cols_pairwise xv)
          generalize hq : Emulator.drawBits xv yv k byte (List.range 8) s coll = q at h hhead
          have hrow2 : ∀ l1 l2, k + 1 ≤ l1 → l1 < k + 1 + j → k + 1 ≤ l2 →
              l2 < k + 1 + j → l1 ≠ l2 → (yv + l1) % 32 ≠ (yv + l2) % 32 :=
            fun l1 l2 h1 h2 h3 h4 h5 =>
              hrow l1 l2 (by omega) (by omega) (by omega) (by omega) h5
          have htail := ih (k + 1) q.1 q.2 p hrow2 h
          have hconv :
              ((List.range' (k + 1) j).any fun l =>
                (List.range 8).any fun c =>
                  q.1.pixels ((yv + l) % 32) ((xv + c) % 64)
                    && ((m.cells ((i + l) % 65536) >>> (7 - c)) &&& 1 == 1))
              = ((List.range' (k + 1) j).any fun l =>
                (List.range 8).any fun c =>
                  s.pixels ((yv + l) % 32) ((xv + c) % 64)
                    && ((m.cells ((i + l) % 65536) >>> (7 - c)) &&& 1 == 1)) := by
            refine list_any_congr _ _ _ fun l hl => ?_
            have hb := List.mem_range'_1.mp hl
            have hne : (yv + l) % 32 ≠ (yv + k) % 32 :=
              hrow l k (by omega) (by omega) (by omega) (by omega) (by omega)
            refine list_any_congr _ _ _ fun c _ => ?_
            rw [← hq, drawBits_other_rows xv yv k byte (List.range 8) s coll _ _ hne]
          rw [htail, hconv, hhead, List.range'_succ, List.any_cons, hbyte,
            Bool.or_assoc]

/-- C5: whenever the draw loop completes, the resulting screen is the
one described by the specification: every sprite bit (rows top to
bottom, columns most significant bit first) is XORed into the pixel at
(x + column, y + row) with wraparound modulo (64, 32) applied
independently per axis and per pixel, never clipped.  The code computes
the coordinates as u8 sums (mod 256) and the display wraps them mod 64
and 32; since 64 and 32 divide 256 this agrees with the specification
for every starting coordinate, including sprites hanging over the right
or bottom edge.  The byte-valued-memory hypothesis reflects the u8 cell
type. -/
theorem C5_draw_wraparound :
    ∀ (e : Emulator) (vx vy n : Nat),
      (∀ a, e.mem.cells a < 256) →
      (Emulator.draw e vx vy n).map (fun e2 => e2.scr)
        = (Emulator.draw e vx vy n).map (fun _ =>
            drawSpecScreen e.scr (e.cpu.regs vx) (e.cpu.regs vy)
              (spriteAt e.mem e.cpu.i n)) := by
  intro e vx vy n hm
  simp only [Emulator.draw]
  cases hdl : Emulator.drawLines e.mem e.cpu.i (e.cpu.regs vx) (e.cpu.regs vy)
      (List.range n) e.scr false with
  | none => rfl
  | some p =>
      simp only [Option.map_some']
      congr 1
      rw [List.range_eq_range'] at hdl
      have hp := drawLines_fst e.mem e.cpu.i (e.cpu.regs vx) (e.cpu.regs vy)
        hm n 0 e.scr false p hdl
      show p.1 = _
      rw [hp]
      unfold drawSpecScreen spriteAt
      rw [List.range_eq_range']

/-- Witness for C5: the draw theorem applied to a freshly constructed
emulator drawing one sprite row at (V0, V1); the draw completes. -/
theorem C5_draw_wraparound_witness :
    (Emulator.draw Emulator.new 0 1 1).isSome = true
    ∧ ((Emulator.draw Emulator.new 0 1 1).map (fun e2 => e2.scr)
        = (Emulator.draw Emulator.new 0 1 1).map (fun _ =>
            drawSpecScreen Emulator.new.scr (Emulator.new.cpu.regs 0)
              (Emulator.new.cpu.regs 1)
              (spriteAt Emulator.new.mem Emulator.new.cpu.i 1))) :=
  ⟨rfl, C5_draw_wraparound Emulator.new 0 1 1
    (fun a => by simp only [Emulator.new, Mem.new]; norm_num)⟩

/-- C10: every completed execution of the Draw opcode overwrites the
flag register VF with 1 when some touched pixel transitioned from set
to unset during the draw and 0 otherwise, independently of the previous
VF value; with n = 0 rows, or a draw that only turns pixels on, the
collision predicate is false and VF is forced to 0. -/
theorem C10_draw_overwrites_flag :
    ∀ (r : Nat) (e : Emulator) (vx vy n : Nat), n < 16 →
      (∀ a, e.mem.cells a < 256) →
      (Emulator.exec r (Opcode.DRW vx vy n) e).map (fun e2 => e2.cpu.regs 0xF)
        = (Emulator.exec r (Opcode.DRW vx vy n) e).map (fun _ =>
            if collisionSpecB e vx vy n then 1 else 0) := by
  intro r e vx vy n hn hm
  simp only [Emulator.exec, Emulator.draw, Option.map_map]
  cases hdl : Emulator.drawLines e.mem e.cpu.i (e.cpu.regs vx) (e.cpu.regs vy)
      (List.range n) e.scr false with
  | none => rfl
  | some p =>
      simp only [Option.map_some', Function.comp]
      congr 1
      rw [List.range_eq_range'] at hdl
      have hrow : ∀ l1 l2, 0 ≤ l1 → l1 < 0 + n → 0 ≤ l2 → l2 < 0 + n →
          l1 ≠ l2 → (e.cpu.regs vy + l1) % 32 ≠ (e.cpu.regs vy + l2) % 32 := by
        intro l1 l2 h1 h2 h3 h4 h5
        omega
      have hp := drawLines_snd e.mem e.cpu.i (e.cpu.regs vx) (e.cpu.regs vy)
        hm n 0 e.scr false p hrow hdl
      simp only [Bool.false_or] at hp
      show Regs.set e.cpu.regs 0xF (if p.2 then 1 else 0) 0xF = _
      rw [show Regs.set e.cpu.regs 0xF (if p.2 then 1 else 0) 0xF
          = (if p.2 then 1 else 0) from if_pos rfl]
      rw [hp]
      unfold collisionSpecB
      rw [List.range_eq_range' n]

/-- Witness for C10: the flag theorem applied to a draw over a lit
pixel, which reports the collision in VF (the value is 1). -/
theorem C10_draw_overwrites_flag_witness :
    ((Emulator.exec 0 (Opcode.DRW 0 1 1) emuDraw).map (fun e2 => e2.cpu.regs 0xF)
        = some 1)
    ∧ collisionSpecB emuDraw 0 1 1 = true
    ∧ ((Emulator.exec 0 (Opcode.DRW 0 1 1) emuDraw).map (fun e2 => e2.cpu.regs 0xF)
        = (Emulator.exec 0 (Opcode.DRW 0 1 1) emuDraw).map (fun _ =>
            if collisionSpecB emuDraw 0 1 1 then 1 else 0)) :=
  ⟨rfl, rfl, C10_draw_overwrites_flag 0 emuDraw 0 1 1 (by norm_num)
    (fun a => by simp only [emuDraw, Mem.new]; split <;> norm_num)⟩

end Chip8


